import Mathlib

/-!
Verification of the reactive project-state store and drag-and-drop
coordination of the task-board application (src/src/app.ts).

The TypeScript code is embedded shallowly.  JavaScript objects live on a
heap: `Project` objects are heap cells addressed by natural-number
references, mirroring the fact that `Array.prototype.slice()` copies the
array of references but shares the pointed-to objects.  The store
(`ProjectState`, which inherits the listener list from the generic
`State<T>` class) is a record of the project heap, the internal `projects`
array (a list of references) and the `listeners` array.  Observer
invocations are recorded as `Notification` events carrying the listener
and the reference array it was passed, in invocation order.

`Math.random().toString()` — the identifier source used by `addProject` —
is modelled as an explicit string argument supplied by the environment.
-/

namespace TSFun

/-- Status enum from `enum ProjectStatus { Active, Finished }`. -/
inductive ProjectStatus where
  | Active
  | Finished
deriving DecidableEq, Repr

/-- The `Project` class: id, title, description, people, status. -/
structure Project where
  id : String
  title : String
  description : String
  people : Nat
  status : ProjectStatus
deriving DecidableEq, Repr

/-- A JavaScript object reference: an address into the project heap. -/
abbrev Ref := Nat

/-- One observer invocation: which listener ran, and the array of project
references it received (the result of `this.projects.slice()`). -/
structure Notification where
  listener : Nat
  snapshot : List Ref
deriving DecidableEq, Repr

/-- State of the `ProjectState` singleton object together with the heap of
`Project` objects it points into.  `projects` and `listeners` are the two
private arrays of the class (the latter inherited from `State<Project>`). -/
structure ProjectState where
  heap : List Project
  projects : List Ref
  listeners : List Nat
deriving DecidableEq, Repr

/-- The store as built by the private constructor: empty heap, no
projects, no listeners. -/
def emptyProjectState : ProjectState := ⟨[], [], []⟩

/-- Dereference an array of project references against the heap: the list
of `Project` values a JavaScript consumer would see. -/
def resolve (heap : List Project) (refs : List Ref) : List Project :=
  refs.filterMap (fun r => heap[r]?)

/-- The project value visible at position `j` of the store's collection. -/
def resolveAt (s : ProjectState) (j : Nat) : Option Project :=
  match s.projects[j]? with
  | some r => s.heap[r]?
  | none => none

/-- `State.addListener`: `this.listeners.push(listenerFn)`. -/
def addListener (s : ProjectState) (l : Nat) : ProjectState :=
  { s with listeners := s.listeners ++ [l] }

/-- `ProjectState.updateListeners`: call every listener, in order, with
`this.projects.slice()` — a fresh array holding the same references. -/
def updateListeners (s : ProjectState) : List Notification :=
  s.listeners.map (fun l => ⟨l, s.projects⟩)

/-- `ProjectState.addProject`: allocate a new `Project` with the string
produced by `Math.random().toString()` (here the explicit `randomId`
argument) and status `Active`, push it onto `this.projects`, then call
each listener with `this.projects.slice()`. -/
def addProject (s : ProjectState) (randomId title description : String)
    (numOfPeople : Nat) : ProjectState × List Notification :=
  let newProject : Project :=
    ⟨randomId, title, description, numOfPeople, ProjectStatus.Active⟩
  let r : Ref := s.heap.length
  let s' : ProjectState :=
    { s with heap := s.heap ++ [newProject], projects := s.projects ++ [r] }
  (s', s'.listeners.map (fun l => ⟨l, s'.projects⟩))

/-- `this.projects.find(prj => prj.id === projectId)`: the reference to
the first project in the array whose `id` equals `projectId`. -/
def findProject (heap : List Project) (refs : List Ref)
    (projectId : String) : Option Ref :=
  refs.find? (fun r =>
    match heap[r]? with
    | some p => p.id == projectId
    | none => false)

/-- `ProjectState.moveProject`: look the project up by id; if found and
its status differs from `newStatus`, mutate the `status` field in place
and call `updateListeners()`; otherwise do nothing. -/
def moveProject (s : ProjectState) (projectId : String)
    (newStatus : ProjectStatus) : ProjectState × List Notification :=
  match findProject s.heap s.projects projectId with
  | none => (s, [])
  | some r =>
    match s.heap[r]? with
    | none => (s, [])
    | some p =>
      if p.status = newStatus then (s, [])
      else
        let s' : ProjectState :=
          { s with heap := s.heap.set r { p with status := newStatus } }
        (s', updateListeners s')

/-- An observer writing through the array it received: `snapshot[i]` is a
shared reference into the store's heap, so assigning to a field of that
element (`f` applied to the cell) updates the heap cell in place.  The
observer's own array object is distinct from the store's, so no list
structure of the store is touched. -/
def mutateThroughSnapshot (s : ProjectState) (snapshot : List Ref)
    (i : Nat) (f : Project → Project) : ProjectState :=
  match snapshot[i]? with
  | some r =>
    match s.heap[r]? with
    | some p => { s with heap := s.heap.set r (f p) }
    | none => s
  | none => s

/-- One recorded call to `addProject`, together with the value
`Math.random().toString()` returned during it. -/
structure AddCall where
  randomId : String
  title : String
  description : String
  numOfPeople : Nat
deriving DecidableEq, Repr

/-- Run a sequence of `addProject` calls against a store state. -/
def runAdds (s : ProjectState) (calls : List AddCall) : ProjectState :=
  calls.foldl
    (fun st c => (addProject st c.randomId c.title c.description c.numOfPeople).1) s

/-- The ids of the projects currently in the store, in insertion order. -/
def storeIds (s : ProjectState) : List String :=
  (resolve s.heap s.projects).map Project.id

/-- Well-formed store: every reference in the `projects` array points to
an allocated heap cell.  Every state reachable through the class API
satisfies this. -/
def WF (s : ProjectState) : Prop :=
  ∀ r ∈ s.projects, r < s.heap.length

instance (s : ProjectState) : Decidable (WF s) := by
  unfold WF; exact List.decidableBAll _ _

/-- The platform drag-transfer channel, restricted to what the code
reads: the declared content-kind list `types`. -/
structure DataTransferModel where
  types : List String
deriving DecidableEq, Repr

/-- A drag event: `dataTransfer` may be `null`. -/
structure DragEventModel where
  dataTransfer : Option DataTransferModel
deriving DecidableEq, Repr

/-- Observable effects of `ProjectList.dragOverHandler`: whether it called
`event.preventDefault()` and whether it added the `droppable` class. -/
structure DragOverEffects where
  preventedDefault : Bool
  addedDroppable : Bool
deriving DecidableEq, Repr

/-- `ProjectList.dragOverHandler`: if `event.dataTransfer` is non-null and
`event.dataTransfer.types[0] === "text/plain"`, prevent the default and
add the `droppable` class; otherwise do nothing.  The handler body never
touches `projectState`, so the store passes through unchanged. -/
def dragOverHandler (s : ProjectState) (e : DragEventModel) :
    ProjectState × DragOverEffects :=
  match e.dataTransfer with
  | some dt =>
    if dt.types[0]? = some "text/plain" then
      (s, ⟨true, true⟩)
    else
      (s, ⟨false, false⟩)
  | none => (s, ⟨false, false⟩)

/-- Whether the event's first declared content kind is `text/plain` — the
exact condition `event.dataTransfer && event.dataTransfer.types[0] ===
"text/plain"` tested by the handler. -/
def firstTypeIsPlainText (e : DragEventModel) : Bool :=
  match e.dataTransfer with
  | some dt => dt.types[0]? == some "text/plain"
  | none => false

/-- Process-global state backing `ProjectState.getInstance`: the static
`instance` field (an object reference, or unset) plus an allocation
counter giving fresh object identities. -/
structure ProcessState where
  instanceSlot : Option Nat
  nextObjectId : Nat
deriving DecidableEq, Repr

/-- `ProjectState.getInstance`: return the stored instance if present,
else construct a fresh object, store it, and return it. -/
def getInstance (ps : ProcessState) : ProcessState × Nat :=
  match ps.instanceSlot with
  | some r => (ps, r)
  | none =>
    (⟨some ps.nextObjectId, ps.nextObjectId + 1⟩, ps.nextObjectId)

/-! ## Helper lemmas -/

/-- `addProject` preserves well-formedness: the fresh reference points to
the freshly appended cell, and old references stay in range. -/
theorem WF_addProject (s : ProjectState) (rid t d : String) (n : Nat)
    (h : WF s) : WF (addProject s rid t d n).1 := by
  intro r hr
  have hlen : (addProject s rid t d n).1.heap.length = s.heap.length + 1 := by
    simp [addProject]
  have hmem : r ∈ s.projects ++ [s.heap.length] := by
    simpa [addProject] using hr
  rw [hlen]
  rcases List.mem_append.1 hmem with hr' | hr'
  · exact Nat.lt_succ_of_lt (h r hr')
  · have hre : r = s.heap.length := by simpa using hr'
    exact hre ▸ Nat.lt_succ_self _

/-- Appending a fresh cell to the heap does not change how in-range
references resolve. -/
theorem resolve_heap_append (heap : List Project) (p : Project)
    (refs : List Ref) (h : ∀ r ∈ refs, r < heap.length) :
    resolve (heap ++ [p]) refs = resolve heap refs := by
  unfold resolve
  induction refs with
  | nil => rfl
  | cons a tl ih =>
    have ha : a < heap.length := h a (List.mem_cons_self a tl)
    have htl : ∀ r ∈ tl, r < heap.length := fun r hr => h r (List.mem_cons_of_mem a hr)
    simp only [List.filterMap_cons, List.getElem?_append_left ha, ih htl]

/-- The collection visible after `addProject`: the old projects in their
old positions followed by the new `Active` project. -/
theorem resolve_addProject (s : ProjectState) (rid t d : String) (n : Nat)
    (h : WF s) :
    resolve (addProject s rid t d n).1.heap (addProject s rid t d n).1.projects
      = resolve s.heap s.projects ++ [⟨rid, t, d, n, ProjectStatus.Active⟩] := by
  unfold addProject resolve
  simp only [List.filterMap_append, List.filterMap_cons, List.filterMap_nil]
  rw [List.getElem?_concat_length]
  have : List.filterMap (fun r => (s.heap ++ [⟨rid, t, d, n, ProjectStatus.Active⟩])[r]?) s.projects
      = List.filterMap (fun r => s.heap[r]?) s.projects :=
    resolve_heap_append s.heap _ s.projects h
  rw [this]

/-- Ids after `addProject`: the old ids followed by the new random id. -/
theorem storeIds_addProject (s : ProjectState) (rid t d : String) (n : Nat)
    (h : WF s) :
    storeIds (addProject s rid t d n).1 = storeIds s ++ [rid] := by
  unfold storeIds
  rw [resolve_addProject s rid t d n h]
  simp

/-- Ids after a whole sequence of `addProject` calls: the starting ids
followed by the random strings drawn during the calls, in order. -/
theorem storeIds_runAdds (calls : List AddCall) :
    ∀ s : ProjectState, WF s →
      storeIds (runAdds s calls) = storeIds s ++ calls.map AddCall.randomId := by
  induction calls with
  | nil => intro s _; simp [runAdds]
  | cons c tl ih =>
    intro s hs
    have hstep : WF (addProject s c.randomId c.title c.description c.numOfPeople).1 :=
      WF_addProject s _ _ _ _ hs
    have : runAdds s (c :: tl)
        = runAdds (addProject s c.randomId c.title c.description c.numOfPeople).1 tl := rfl
    rw [this, ih _ hstep, storeIds_addProject s _ _ _ _ hs]
    simp

/-- The result of `find?` occurs no later than any element satisfying the
predicate: if `l.find? p = some r` and position `j` holds a satisfying
element, then `r` sits at some position `i0 ≤ j`. -/
theorem find?_first_le {α : Type} (p : α → Bool) :
    ∀ (l : List α) (r : α), l.find? p = some r →
      ∀ (j : Nat) (rj : α), l[j]? = some rj → p rj = true →
        ∃ i0, i0 ≤ j ∧ l[i0]? = some r := by
  intro l
  induction l with
  | nil => intro r hfind; simp [List.find?] at hfind
  | cons a tl ih =>
    intro r hfind j rj hj hpj
    rcases hpa : p a with _ | _
    · rw [List.find?_cons_of_neg _ (by simp [hpa])] at hfind
      match j with
      | 0 =>
        simp only [List.getElem?_cons_zero, Option.some_inj] at hj
        subst hj
        rw [hpa] at hpj
        exact absurd hpj (by simp)
      | j' + 1 =>
        simp only [List.getElem?_cons_succ] at hj
        obtain ⟨i0, hle, hi0⟩ := ih r hfind j' rj hj hpj
        exact ⟨i0 + 1, by omega, by simpa using hi0⟩
    · rw [List.find?_cons_of_pos _ hpa] at hfind
      exact ⟨0, Nat.zero_le j, by simpa using hfind⟩

/-- Mapping the listener component over a notification batch recovers the
listener list it was built from. -/
theorem map_listener_map (ls : List Nat) (ps : List Ref) :
    (ls.map (fun l => (⟨l, ps⟩ : Notification))).map Notification.listener = ls := by
  induction ls with
  | nil => rfl
  | cons a tl ih => simp [ih]

/-! ## Claim theorems -/

/-- C1, counterexample: identifier uniqueness fails as stated.  The code
draws ids from `Math.random().toString()`; when the generator returns the
same string twice ("0.5" here), two projects in the store share an id. -/
theorem duplicate_random_ids_break_uniqueness :
    storeIds (runAdds emptyProjectState
        [⟨"0.5", "T", "D", 1⟩, ⟨"0.5", "U", "E", 2⟩]) = ["0.5", "0.5"]
    ∧ ¬ (storeIds (runAdds emptyProjectState
        [⟨"0.5", "T", "D", 1⟩, ⟨"0.5", "U", "E", 2⟩])).Nodup :=
  ⟨rfl, by decide⟩

/-- C1 (amended): for every sequence of `addProject` calls in which the
random identifier source never returns the same string twice, all
projects in the resulting store have pairwise distinct ids. -/
theorem addProject_ids_distinct_of_fresh_randoms (calls : List AddCall)
    (hnd : (calls.map AddCall.randomId).Nodup) :
    (storeIds (runAdds emptyProjectState calls)).Nodup := by
  have hwf : WF emptyProjectState := by
    intro r hr
    simp [emptyProjectState] at hr
  rw [storeIds_runAdds calls emptyProjectState hwf]
  simpa [storeIds, emptyProjectState, resolve] using hnd

/-- Witness for the amended C1 at a concrete two-call sequence with
distinct random draws. -/
theorem addProject_ids_distinct_of_fresh_randoms_witness :
    (([⟨"0.1", "T", "D", 1⟩, ⟨"0.2", "U", "E", 2⟩] : List AddCall).map
        AddCall.randomId).Nodup
    ∧ (storeIds (runAdds emptyProjectState
        [⟨"0.1", "T", "D", 1⟩, ⟨"0.2", "U", "E", 2⟩])).Nodup :=
  ⟨by decide, addProject_ids_distinct_of_fresh_randoms _ (by decide)⟩

/-- C3: on any well-formed store, `addProject` appends a new project with
the given fields and status `Active` at the end of the collection, leaves
every previously stored project in place, leaves the listener list
unchanged, and invokes every registered observer exactly once, in order,
with a snapshot whose last element is the new project. -/
theorem addProject_appends_active_and_notifies_all (s : ProjectState)
    (rid t d : String) (n : Nat) (h : WF s) :
    resolve (addProject s rid t d n).1.heap (addProject s rid t d n).1.projects
      = resolve s.heap s.projects ++ [⟨rid, t, d, n, ProjectStatus.Active⟩]
    ∧ (addProject s rid t d n).1.listeners = s.listeners
    ∧ (addProject s rid t d n).2
        = s.listeners.map (fun l => ⟨l, (addProject s rid t d n).1.projects⟩)
    ∧ ∀ ev ∈ (addProject s rid t d n).2,
        (resolve (addProject s rid t d n).1.heap ev.snapshot).getLast?
          = some ⟨rid, t, d, n, ProjectStatus.Active⟩ := by
  refine ⟨resolve_addProject s rid t d n h, rfl, rfl, ?_⟩
  intro ev hev
  simp only [addProject, List.mem_map] at hev
  obtain ⟨l, _, hev'⟩ := hev
  have hsnap : ev.snapshot = s.projects ++ [s.heap.length] := by
    rw [← hev']
  have hres := resolve_addProject s rid t d n h
  simp only [addProject] at hres
  have hgoal : resolve (addProject s rid t d n).1.heap ev.snapshot
      = resolve s.heap s.projects ++ [⟨rid, t, d, n, ProjectStatus.Active⟩] := by
    rw [hsnap]
    exact hres
  rw [hgoal, List.getLast?_concat]

/-- Witness for C3: a store with one registered listener. -/
theorem addProject_appends_active_and_notifies_all_witness :
    WF (addListener emptyProjectState 0)
    ∧ (resolve (addProject (addListener emptyProjectState 0) "0.3" "T" "D" 2).1.heap
          (addProject (addListener emptyProjectState 0) "0.3" "T" "D" 2).1.projects
        = resolve (addListener emptyProjectState 0).heap
            (addListener emptyProjectState 0).projects
          ++ [⟨"0.3", "T", "D", 2, ProjectStatus.Active⟩]
      ∧ (addProject (addListener emptyProjectState 0) "0.3" "T" "D" 2).1.listeners
          = (addListener emptyProjectState 0).listeners
      ∧ (addProject (addListener emptyProjectState 0) "0.3" "T" "D" 2).2
          = (addListener emptyProjectState 0).listeners.map
              (fun l => ⟨l, (addProject (addListener emptyProjectState 0) "0.3" "T" "D" 2).1.projects⟩)
      ∧ ∀ ev ∈ (addProject (addListener emptyProjectState 0) "0.3" "T" "D" 2).2,
          (resolve (addProject (addListener emptyProjectState 0) "0.3" "T" "D" 2).1.heap
              ev.snapshot).getLast?
            = some ⟨"0.3", "T", "D", 2, ProjectStatus.Active⟩) :=
  ⟨by decide,
   addProject_appends_active_and_notifies_all (addListener emptyProjectState 0)
     "0.3" "T" "D" 2 (by decide)⟩

/-- C4: `moveProject` with an id that matches no project in the
collection is a total no-op: the state is unchanged and no observer is
invoked. -/
theorem moveProject_unknown_id_noop (s : ProjectState) (pid : String)
    (st : ProjectStatus) (h : ∀ p ∈ resolve s.heap s.projects, p.id ≠ pid) :
    moveProject s pid st = (s, []) := by
  have hfind : findProject s.heap s.projects pid = none := by
    unfold findProject
    rw [List.find?_eq_none]
    intro r hr
    cases hp : s.heap[r]? with
    | none => simp
    | some p =>
      have hpmem : p ∈ resolve s.heap s.projects :=
        List.mem_filterMap.2 ⟨r, hr, hp⟩
      simpa using h p hpmem
  simp [moveProject, hfind]

/-- Witness for C4: a one-project store probed with a different id. -/
theorem moveProject_unknown_id_noop_witness :
    (∀ p ∈ resolve (addProject (addListener emptyProjectState 0) "0.1" "T" "D" 1).1.heap
        (addProject (addListener emptyProjectState 0) "0.1" "T" "D" 1).1.projects,
      p.id ≠ "nonexistent-id")
    ∧ moveProject (addProject (addListener emptyProjectState 0) "0.1" "T" "D" 1).1
        "nonexistent-id" ProjectStatus.Finished
      = ((addProject (addListener emptyProjectState 0) "0.1" "T" "D" 1).1, []) :=
  ⟨by decide,
   moveProject_unknown_id_noop _ "nonexistent-id" ProjectStatus.Finished (by decide)⟩

/-- A reachable store holding two distinct projects that share the id
"0.5" (the random source collided), the first `Finished`, the second
`Active`, with one registered listener. -/
def dupIdStore : ProjectState :=
  (moveProject
    (addProject
      (addProject (addListener emptyProjectState 0) "0.5" "T" "D" 1).1
      "0.5" "U" "E" 2).1
    "0.5" ProjectStatus.Finished).1

/-- C5, counterexample: the store `dupIdStore` contains a project with id
"0.5" whose status is already `Active`, yet `moveProject "0.5" Active`
mutates the store (the first matching project moves) and notifies the
listener — because `find` stops at the first id match, not at the one
whose status already agrees. -/
theorem moveProject_same_status_duplicate_id_notifies :
    (∃ p ∈ resolve dupIdStore.heap dupIdStore.projects,
        p.id = "0.5" ∧ p.status = ProjectStatus.Active)
    ∧ (moveProject dupIdStore "0.5" ProjectStatus.Active).1 ≠ dupIdStore
    ∧ (moveProject dupIdStore "0.5" ProjectStatus.Active).2 ≠ [] := by
  refine ⟨?_, ?_, ?_⟩ <;> decide

/-- C5 (amended): when the FIRST project in insertion order whose id
matches already has status `newStatus`, `moveProject` leaves the store
unchanged and invokes no observer. -/
theorem moveProject_first_match_same_status_noop (s : ProjectState)
    (pid : String) (st : ProjectStatus) (r : Ref) (p : Project)
    (hfind : findProject s.heap s.projects pid = some r)
    (hp : s.heap[r]? = some p) (hst : p.status = st) :
    moveProject s pid st = (s, []) := by
  simp [moveProject, hfind, hp, hst]

/-- Witness for the amended C5 on `dupIdStore`: the first "0.5" project
is already `Finished`, so moving to `Finished` is a silent no-op. -/
theorem moveProject_first_match_same_status_noop_witness :
    findProject dupIdStore.heap dupIdStore.projects "0.5" = some 0
    ∧ dupIdStore.heap[0]? = some ⟨"0.5", "T", "D", 1, ProjectStatus.Finished⟩
    ∧ (Project.mk "0.5" "T" "D" 1 ProjectStatus.Finished).status = ProjectStatus.Finished
    ∧ moveProject dupIdStore "0.5" ProjectStatus.Finished = (dupIdStore, []) :=
  ⟨by decide, by decide, rfl,
   moveProject_first_match_same_status_noop dupIdStore "0.5" ProjectStatus.Finished 0
     ⟨"0.5", "T", "D", 1, ProjectStatus.Finished⟩ (by decide) (by decide) rfl⟩

/-- Every `moveProject` call — effective or not — leaves the reference
array, the listener list, and the heap length unchanged. -/
theorem moveProject_preserves_structure (s : ProjectState) (pid : String)
    (st : ProjectStatus) :
    (moveProject s pid st).1.projects = s.projects
    ∧ (moveProject s pid st).1.listeners = s.listeners
    ∧ (moveProject s pid st).1.heap.length = s.heap.length := by
  rcases hfind : findProject s.heap s.projects pid with _ | r
  · simp [moveProject, hfind]
  · rcases hp : s.heap[r]? with _ | p
    · simp [moveProject, hfind, hp]
    · by_cases hst : p.status = st
      · simp [moveProject, hfind, hp, hst]
      · simp [moveProject, hfind, hp, hst]

/-- C6: an effective `moveProject` (first id match found, status differs)
changes exactly the found project's `status` field: the reference array —
hence length and insertion order — and the listener list are untouched,
every other heap cell is untouched, and the moved project keeps its id,
title, description and people count. -/
theorem moveProject_changes_only_found_status (s : ProjectState)
    (pid : String) (st : ProjectStatus) (r : Ref) (p : Project)
    (hfind : findProject s.heap s.projects pid = some r)
    (hp : s.heap[r]? = some p) (hst : p.status ≠ st) :
    (moveProject s pid st).1.projects = s.projects
    ∧ (moveProject s pid st).1.listeners = s.listeners
    ∧ (moveProject s pid st).1.heap
        = s.heap.set r ⟨p.id, p.title, p.description, p.people, st⟩
    ∧ (moveProject s pid st).1.heap[r]?
        = some ⟨p.id, p.title, p.description, p.people, st⟩
    ∧ (∀ r2, r2 ≠ r → (moveProject s pid st).1.heap[r2]? = s.heap[r2]?)
    ∧ (moveProject s pid st).2 = s.listeners.map (fun l => ⟨l, s.projects⟩)
    ∧ (∀ (s2 : ProjectState) (pid2 : String) (st2 : ProjectStatus),
        (moveProject s2 pid2 st2).1.projects = s2.projects
        ∧ (moveProject s2 pid2 st2).1.heap.length = s2.heap.length) := by
  have hmove : moveProject s pid st
      = ({ s with heap := s.heap.set r { p with status := st } },
         updateListeners { s with heap := s.heap.set r { p with status := st } }) := by
    simp [moveProject, hfind, hp, hst]
  obtain ⟨hlt, -⟩ := List.getElem?_eq_some_iff.1 hp
  refine ⟨by rw [hmove], by rw [hmove], by rw [hmove], ?_, ?_,
    by rw [hmove]; rfl, ?_⟩
  · rw [hmove]
    exact List.getElem?_set_self hlt
  · intro r2 hne
    rw [hmove]
    exact List.getElem?_set_ne (Ne.symm hne)
  · intro s2 pid2 st2
    exact ⟨(moveProject_preserves_structure s2 pid2 st2).1,
      (moveProject_preserves_structure s2 pid2 st2).2.2⟩

/-- Witness for C6: moving the single project of a one-project store. -/
theorem moveProject_changes_only_found_status_witness :
    findProject (addProject (addListener emptyProjectState 0) "0.7" "T" "D" 1).1.heap
        (addProject (addListener emptyProjectState 0) "0.7" "T" "D" 1).1.projects "0.7"
      = some 0
    ∧ (addProject (addListener emptyProjectState 0) "0.7" "T" "D" 1).1.heap[0]?
        = some ⟨"0.7", "T", "D", 1, ProjectStatus.Active⟩
    ∧ (Project.mk "0.7" "T" "D" 1 ProjectStatus.Active).status ≠ ProjectStatus.Finished
    ∧ ((moveProject (addProject (addListener emptyProjectState 0) "0.7" "T" "D" 1).1
          "0.7" ProjectStatus.Finished).1.projects
        = (addProject (addListener emptyProjectState 0) "0.7" "T" "D" 1).1.projects
      ∧ (moveProject (addProject (addListener emptyProjectState 0) "0.7" "T" "D" 1).1
          "0.7" ProjectStatus.Finished).1.listeners
        = (addProject (addListener emptyProjectState 0) "0.7" "T" "D" 1).1.listeners
      ∧ (moveProject (addProject (addListener emptyProjectState 0) "0.7" "T" "D" 1).1
          "0.7" ProjectStatus.Finished).1.heap
        = (addProject (addListener emptyProjectState 0) "0.7" "T" "D" 1).1.heap.set 0
            ⟨"0.7", "T", "D", 1, ProjectStatus.Finished⟩
      ∧ (moveProject (addProject (addListener emptyProjectState 0) "0.7" "T" "D" 1).1
          "0.7" ProjectStatus.Finished).1.heap[0]?
        = some ⟨"0.7", "T", "D", 1, ProjectStatus.Finished⟩
      ∧ (∀ r2, r2 ≠ 0 →
          (moveProject (addProject (addListener emptyProjectState 0) "0.7" "T" "D" 1).1
            "0.7" ProjectStatus.Finished).1.heap[r2]?
          = (addProject (addListener emptyProjectState 0) "0.7" "T" "D" 1).1.heap[r2]?)
      ∧ (moveProject (addProject (addListener emptyProjectState 0) "0.7" "T" "D" 1).1
          "0.7" ProjectStatus.Finished).2
        = (addProject (addListener emptyProjectState 0) "0.7" "T" "D" 1).1.listeners.map
            (fun l => ⟨l, (addProject (addListener emptyProjectState 0) "0.7" "T" "D" 1).1.projects⟩)
      ∧ (∀ (s2 : ProjectState) (pid2 : String) (st2 : ProjectStatus),
          (moveProject s2 pid2 st2).1.projects = s2.projects
          ∧ (moveProject s2 pid2 st2).1.heap.length = s2.heap.length)) :=
  ⟨by decide, by decide, by decide,
   moveProject_changes_only_found_status
     (addProject (addListener emptyProjectState 0) "0.7" "T" "D" 1).1
     "0.7" ProjectStatus.Finished 0 ⟨"0.7", "T", "D", 1, ProjectStatus.Active⟩
     (by decide) (by decide) (by decide)⟩

/-- C7: listeners are registered by appending, and every notifying
mutation (`addProject`, or `moveProject` when it notifies at all) invokes
the listeners exactly in the stored registration order, one call each. -/
theorem listeners_notified_in_registration_order (s : ProjectState)
    (l : Nat) (rid t d pid : String) (n : Nat) (st : ProjectStatus) :
    (addListener s l).listeners = s.listeners ++ [l]
    ∧ (addProject s rid t d n).2.map Notification.listener = s.listeners
    ∧ ((moveProject s pid st).2 = []
        ∨ (moveProject s pid st).2.map Notification.listener = s.listeners) := by
  refine ⟨rfl, ?_, ?_⟩
  · simpa [addProject] using
      map_listener_map s.listeners (s.projects ++ [s.heap.length])
  · rcases hfind : findProject s.heap s.projects pid with _ | r
    · exact Or.inl (by simp [moveProject, hfind])
    · rcases hp : s.heap[r]? with _ | p
      · exact Or.inl (by simp [moveProject, hfind, hp])
      · by_cases hst : p.status = st
        · exact Or.inl (by simp [moveProject, hfind, hp, hst])
        · refine Or.inr ?_
          simpa [moveProject, hfind, hp, hst, updateListeners] using
            map_listener_map s.listeners s.projects

/-- A one-project store ("0.9", `Active`) with one registered listener,
immediately after the `addProject` call that notified the listener. -/
def obsBaseStore : ProjectState :=
  (addProject (addListener emptyProjectState 0) "0.9" "T" "D" 3).1

/-- `obsBaseStore` after the observer assigns `status = Finished` to
element 0 of the snapshot array it received. -/
def obsMutatedStore : ProjectState :=
  mutateThroughSnapshot obsBaseStore [0] 0
    (fun p => { p with status := ProjectStatus.Finished })

/-- C2, counterexample: `slice()` copies only the reference array, so an
observer that mutates a `Project` element of its snapshot does change the
store.  The listener received the snapshot `[0]`; writing `Finished`
through it flips the store's project from `Active` to `Finished`, and the
next notification delivers exactly that changed data. -/
theorem snapshot_element_mutation_reaches_store :
    (addProject (addListener emptyProjectState 0) "0.9" "T" "D" 3).2 = [⟨0, [0]⟩]
    ∧ resolve obsBaseStore.heap obsBaseStore.projects
        = [⟨"0.9", "T", "D", 3, ProjectStatus.Active⟩]
    ∧ resolve obsMutatedStore.heap obsMutatedStore.projects
        = [⟨"0.9", "T", "D", 3, ProjectStatus.Finished⟩]
    ∧ updateListeners obsMutatedStore = [⟨0, [0]⟩]
    ∧ resolve obsMutatedStore.heap obsMutatedStore.projects
        ≠ resolve obsBaseStore.heap obsBaseStore.projects := by
  refine ⟨?_, ?_, ?_, ?_, ?_⟩ <;> decide

/-- C2 (amended): the snapshot is a shallow copy.  No write an observer
performs through the received array can change the store's reference
array (membership, length, order) or its listener list — only the shared
`Project` cells themselves can change. -/
theorem snapshot_mutation_preserves_collection_structure (s : ProjectState)
    (snapshot : List Ref) (i : Nat) (f : Project → Project) :
    (mutateThroughSnapshot s snapshot i f).projects = s.projects
    ∧ (mutateThroughSnapshot s snapshot i f).listeners = s.listeners := by
  rcases hsnap : snapshot[i]? with _ | r
  · simp [mutateThroughSnapshot, hsnap]
  · rcases hp : s.heap[r]? with _ | p
    · simp [mutateThroughSnapshot, hsnap, hp]
    · simp [mutateThroughSnapshot, hsnap, hp]

/-- C8, counterexample: a transfer channel that declares the plain-text
kind second (`["text/html", "text/plain"]`) does declare plain text, yet
the handler — which probes only `types[0]` — neither prevents the default
nor adds the droppable affordance. -/
theorem dragOver_ignores_plain_text_when_not_first :
    "text/plain" ∈ (["text/html", "text/plain"] : List String)
    ∧ (dragOverHandler emptyProjectState
        ⟨some ⟨["text/html", "text/plain"]⟩⟩).2
      = ⟨false, false⟩ :=
  ⟨by decide, rfl⟩

/-- C8 (amended): `dragOverHandler` never touches the store, and it
prevents the default and adds the droppable affordance exactly when the
channel's FIRST declared content kind is `text/plain`; in every other
case it does nothing at all. -/
theorem dragOverHandler_first_type_plain_text (s : ProjectState)
    (e : DragEventModel) :
    dragOverHandler s e
      = (s, ⟨firstTypeIsPlainText e, firstTypeIsPlainText e⟩) := by
  rcases htr : e.dataTransfer with _ | dt
  · simp [dragOverHandler, firstTypeIsPlainText, htr]
  · by_cases hdt : dt.types[0]? = some "text/plain"
    · simp [dragOverHandler, firstTypeIsPlainText, htr, hdt]
    · simp [dragOverHandler, firstTypeIsPlainText, htr, hdt]

/-- C9: `getInstance` is idempotent.  Whatever the process state, after
one call every further call returns the very same object reference and
leaves the process state untouched, and the static slot holds exactly
that reference — so one instance exists per process. -/
theorem getInstance_idempotent (ps : ProcessState) :
    getInstance ((getInstance ps).1) = ((getInstance ps).1, (getInstance ps).2)
    ∧ ((getInstance ps).1).instanceSlot = some (getInstance ps).2 := by
  rcases hslot : ps.instanceSlot with _ | r
  · simp [getInstance, hslot]
  · simp [getInstance, hslot]

/-- The project at position `i` of the store resolves and carries id
`pid`. -/
def matchesAt (s : ProjectState) (pid : String) (i : Nat) : Prop :=
  ∃ p, resolveAt s i = some p ∧ p.id = pid

/-- C10: with duplicate ids in the store, `moveProject` touches at most
the first match: if position `i` holds a matching project, then any later
position `j` — matching or not — shows the same project value after the
call, provided the store's reference array has no aliased entries (true
of every API-reachable store, where each cell is freshly allocated). -/
theorem moveProject_leaves_later_duplicates_untouched (s : ProjectState)
    (pid : String) (st : ProjectStatus) (i j : Nat) (hij : i < j)
    (hi : matchesAt s pid i) (hj : matchesAt s pid j)
    (hnd : s.projects.Nodup) :
    resolveAt (moveProject s pid st).1 j = resolveAt s j := by
  rcases hfind : findProject s.heap s.projects pid with _ | r
  · simp [moveProject, hfind]
  · rcases hp : s.heap[r]? with _ | p
    · simp [moveProject, hfind, hp]
    · by_cases hst : p.status = st
      · simp [moveProject, hfind, hp, hst]
      · have hmove : (moveProject s pid st).1
            = { s with heap := s.heap.set r { p with status := st } } := by
          simp [moveProject, hfind, hp, hst]
        obtain ⟨pi, hresi, hidi⟩ := hi
        obtain ⟨pj, hresj, hidj⟩ := hj
        rcases hri : s.projects[i]? with _ | ri
        · rw [resolveAt, hri] at hresi
          exact absurd hresi (by simp)
        · rcases hrj : s.projects[j]? with _ | rj
          · rw [resolveAt, hrj] at hresj
            exact absurd hresj (by simp)
          · rw [resolveAt, hri] at hresi
            rw [resolveAt, hrj] at hresj
            have hheapi : s.heap[ri]? = some pi := by
              simpa using hresi
            have hpred : (fun r0 =>
                match s.heap[r0]? with
                | some q => q.id == pid
                | none => false) ri = true := by
              simp [hheapi, hidi]
            obtain ⟨i0, hi0le, hi0⟩ :=
              find?_first_le _ s.projects r hfind i ri hri hpred
            have hrne : rj ≠ r := by
              intro hcontra
              subst hcontra
              have hi0lt : i0 < s.projects.length :=
                (List.getElem?_eq_some_iff.1 hi0).1
              have : i0 = j :=
                List.getElem?_inj hi0lt hnd (hi0.trans hrj.symm)
              omega
            rw [hmove]
            simp only [resolveAt, hrj]
            exact List.getElem?_set_ne (Ne.symm hrne)

/-- Witness for C10: a store with two distinct projects sharing id "0.8"
(positions 0 and 1); moving "0.8" to `Finished` rewrites position 0 but
position 1 still resolves to its original project. -/
theorem moveProject_leaves_later_duplicates_untouched_witness :
    (0 : Nat) < 1
    ∧ matchesAt (addProject (addProject (addListener emptyProjectState 0)
        "0.8" "T" "D" 1).1 "0.8" "U" "E" 2).1 "0.8" 0
    ∧ matchesAt (addProject (addProject (addListener emptyProjectState 0)
        "0.8" "T" "D" 1).1 "0.8" "U" "E" 2).1 "0.8" 1
    ∧ (addProject (addProject (addListener emptyProjectState 0)
        "0.8" "T" "D" 1).1 "0.8" "U" "E" 2).1.projects.Nodup
    ∧ resolveAt (moveProject (addProject (addProject (addListener emptyProjectState 0)
          "0.8" "T" "D" 1).1 "0.8" "U" "E" 2).1 "0.8" ProjectStatus.Finished).1 1
      = resolveAt (addProject (addProject (addListener emptyProjectState 0)
          "0.8" "T" "D" 1).1 "0.8" "U" "E" 2).1 1 :=
  ⟨by decide,
   ⟨⟨"0.8", "T", "D", 1, ProjectStatus.Active⟩, rfl, rfl⟩,
   ⟨⟨"0.8", "U", "E", 2, ProjectStatus.Active⟩, rfl, rfl⟩,
   by decide,
   moveProject_leaves_later_duplicates_untouched _ "0.8" ProjectStatus.Finished 0 1
     (by decide)
     ⟨⟨"0.8", "T", "D", 1, ProjectStatus.Active⟩, rfl, rfl⟩
     ⟨⟨"0.8", "U", "E", 2, ProjectStatus.Active⟩, rfl, rfl⟩
     (by decide)⟩

end TSFun
